import Mathlib

/-!
Verification of the Golangvuln repository: a shallow embedding of the
semver range engine (`internal/vulncheck/semver.go`), the call-stack
summarizer (`cmd/govulncheck`), the CVE update coordinator
(`internal/worker/update.go`) and the issue emitter, together with proofs
of the specified properties.
-/

namespace Golangvuln

/-! ## Semver model

The `osv` package and `internal/semver` are not part of the source tree;
their data model and helpers are modelled from the spec (§3, §4.1).
`golang.org/x/mod/semver.Compare` is an external library, modelled as the
lexicographic order on parsed `major.minor.patch` triples of canonical
versions. -/

/-- Modelled from the spec (§3): an OSV range event; "each event is either
`introduced = v` or `fixed = v`"; in the JSON model an unset field is the
empty string. -/
structure RangeEvent where
  introduced : String
  fixed : String
  deriving DecidableEq, Repr, Inhabited

/-- Modelled from the spec (§3): "Ranges are typed (semver or unspecified)".
The `osv` package encodes the type as a string constant. -/
def TypeSemver : String := "SEMVER"

/-- Modelled from the spec (§3): an OSV affects range: a type tag and a
sequence of events. -/
structure AffectsRange where
  type : String
  events : List RangeEvent
  deriving DecidableEq, Repr, Inhabited

/-- Digits of a decimal number accumulated to a `Nat`. -/
def readNat (cs : List Char) : Nat :=
  cs.foldl (fun n c => n * 10 + (c.toNat - 48)) 0

/-- Split a character list on `'.'`. -/
def splitDots : List Char → List (List Char)
  | [] => [[]]
  | c :: cs =>
    if c = '.' then [] :: splitDots cs
    else
      match splitDots cs with
      | [] => [[c]]
      | g :: gs => (c :: g) :: gs

/-- Modelled from the spec (§4.1): parse a canonical (possibly `v`-prefixed)
semver string into its `major.minor.patch` triple, ignoring any pre-release
or build suffix; missing components are zero. -/
def parseSemver (s : String) : Nat × Nat × Nat :=
  let cs := s.toList
  let cs := if cs.head? = some 'v' then cs.tail else cs
  let cs := cs.takeWhile (fun c => c ≠ '-' ∧ c ≠ '+')
  match splitDots cs with
  | [] => (0, 0, 0)
  | [a] => (readNat a, 0, 0)
  | [a, b] => (readNat a, readNat b, 0)
  | a :: b :: c :: _ => (readNat a, readNat b, readNat c)

/-- Modelled from the spec (§4.1): `semver.Compare` as a three-way compare,
"a total ordering consistent with semantic versioning". -/
def svCompare (a b : String) : Int :=
  let x := parseSemver a
  let y := parseSemver b
  if x.1 < y.1 then -1
  else if y.1 < x.1 then 1
  else if x.2.1 < y.2.1 then -1
  else if y.2.1 < x.2.1 then 1
  else if x.2.2 < y.2.2 then -1
  else if y.2.2 < x.2.2 then 1
  else 0

/-- Remove a leading `go` or `v` from a version, character-wise. -/
def stripSemverPrefix : List Char → List Char
  | 'g' :: 'o' :: rest => rest
  | 'v' :: rest => rest
  | cs => cs

/-- Modelled from the spec (§4.1): `CanonicalizeSemverPrefix` "accepts
versions prefixed `v`, `go`, or bare; canonicalizes to a common
`v`-prefixed form": the prefix is stripped and `v` prepended. -/
def canonicalizeSemverPrefix (s : String) : String :=
  ⟨'v' :: stripSemverPrefix s.toList⟩

/-! ## `containsSemver` and `affectsSemver` (internal/vulncheck/semver.go)

`containsSemver` sorts `ar.Events` in place with `sort.SliceStable` before
walking them.  The embedding separates the comparator, the stable sort
(modelled as a stable insertion sort, which agrees with `sort.SliceStable`
for this comparator) and the walk, and exposes both the boolean result and
the event list as left behind by the call. -/

/-- The comparator passed to `sort.SliceStable` in `containsSemver`:
`Introduced="0"` sorts first, otherwise events compare by their canonicalized
`Fixed` (when set) or `Introduced` version. -/
def eventLess (e1 e2 : RangeEvent) : Bool :=
  if e1.introduced = "0" then true
  else
    let v1 := if e1.fixed ≠ "" then e1.fixed else e1.introduced
    if e2.introduced = "0" then false
    else
      let v2 := if e2.fixed ≠ "" then e2.fixed else e2.introduced
      svCompare (canonicalizeSemverPrefix v1) (canonicalizeSemverPrefix v2) < 0

/-- Stable insertion of an event coming later in the original order into an
already sorted list: it lands after every element it is not strictly less
than. -/
def insertEvent (lt : RangeEvent → RangeEvent → Bool) (e : RangeEvent) :
    List RangeEvent → List RangeEvent
  | [] => [e]
  | f :: fs => if lt e f then e :: f :: fs else f :: insertEvent lt e fs

/-- Stable sort of the event list, modelling `sort.SliceStable`. -/
def sortEvents (lt : RangeEvent → RangeEvent → Bool) (l : List RangeEvent) :
    List RangeEvent :=
  l.foldl (fun acc e => insertEvent lt e acc) []

/-- One step of the affected-flag walk in `containsSemver` (`v` already
canonicalized). -/
def walkStep (v : String) (affected : Bool) (e : RangeEvent) : Bool :=
  if !affected ∧ e.introduced ≠ "" then
    e.introduced = "0" || svCompare v (canonicalizeSemverPrefix e.introduced) ≥ 0
  else if affected ∧ e.fixed ≠ "" then
    decide (svCompare v (canonicalizeSemverPrefix e.fixed) < 0)
  else affected

/-- The affected-flag walk over the (sorted) events of `containsSemver`. -/
def walkEvents (v : String) (events : List RangeEvent) : Bool :=
  events.foldl (walkStep v) false

/-- `containsSemver` from `internal/vulncheck/semver.go`: the boolean result. -/
def containsSemver (ar : AffectsRange) (v : String) : Bool :=
  if ar.type ≠ TypeSemver then false
  else if ar.events = [] then true
  else walkEvents (canonicalizeSemverPrefix v) (sortEvents eventLess ar.events)

/-- The affects range as left behind by `containsSemver`: the call sorts
`ar.Events` in place (via `sort.SliceStable`) exactly when it reaches the
sorting step, i.e. when the range is semver-typed with a non-empty event
list. -/
def containsSemverPost (ar : AffectsRange) : AffectsRange :=
  if ar.type ≠ TypeSemver then ar
  else if ar.events = [] then ar
  else { ar with events := sortEvents eventLess ar.events }

/-- The loop of `affectsSemver`: scans the ranges tracking whether a
semver-typed range was seen; returns true as soon as one contains `v`,
otherwise returns the negation of the flag. -/
def affectsLoop (v : String) : List AffectsRange → Bool → Bool
  | [], present => !present
  | r :: rs, present =>
    if r.type ≠ TypeSemver then affectsLoop v rs present
    else if containsSemver r v then true
    else affectsLoop v rs true

/-- `affectsSemver` from `internal/vulncheck/semver.go`. -/
def affectsSemver (a : List AffectsRange) (v : String) : Bool :=
  if a = [] then true else affectsLoop v a false

/-! ## Claim-side restatement of `containsSemver`

The spec describes the containment walk in its own words; the following
definitions transcribe that description (not the code) so that the two can
be compared.  The spec's reading assumes the documented OSV invariant that
exactly one of `introduced`/`fixed` is set per event. -/

/-- The documented OSV invariant: exactly one of `introduced`/`fixed` is
set in an event. -/
def eventOneOf (e : RangeEvent) : Prop :=
  (e.introduced ≠ "" ∧ e.fixed = "") ∨ (e.introduced = "" ∧ e.fixed ≠ "")

instance (e : RangeEvent) : Decidable (eventOneOf e) := by
  unfold eventOneOf; infer_instance

/-- "The version carried in the event": its introduced or its fixed
version, whichever is set. -/
def eventVersion (e : RangeEvent) : String :=
  if e.introduced ≠ "" then e.introduced else e.fixed

/-- The spec's sort order: `introduced="0"` first, all other events by the
version they carry. -/
def claimLess (e1 e2 : RangeEvent) : Bool :=
  if e1.introduced = "0" then true
  else if e2.introduced = "0" then false
  else
    svCompare (canonicalizeSemverPrefix (eventVersion e1))
      (canonicalizeSemverPrefix (eventVersion e2)) < 0

/-- The spec's walk step: the affected flag becomes true on an introduced
event whose version is `"0"` or is ≤ v, becomes false on a fixed event
whose version is ≤ v, and otherwise keeps its value. -/
def claimStep (v : String) (affected : Bool) (e : RangeEvent) : Bool :=
  if e.introduced = "0" then true
  else if e.introduced ≠ "" ∧
      svCompare (canonicalizeSemverPrefix e.introduced) v ≤ 0 then true
  else if e.fixed ≠ "" ∧
      svCompare (canonicalizeSemverPrefix e.fixed) v ≤ 0 then false
  else affected

/-- The spec's description of `containsSemver`: false for non-semver
ranges, true for event-less ranges, otherwise the final flag of the walk
over the stably sorted events. -/
def claimContainsSemver (ar : AffectsRange) (v : String) : Bool :=
  if ar.type ≠ TypeSemver then false
  else if ar.events = [] then true
  else
    (sortEvents claimLess ar.events).foldl
      (claimStep (canonicalizeSemverPrefix v)) false

/-- The example range of the spec's range-containment scenario. -/
def ex1Range : AffectsRange :=
  ⟨TypeSemver, [⟨"0", ""⟩, ⟨"", "1.18.6"⟩, ⟨"1.19.0", ""⟩, ⟨"", "1.19.1"⟩]⟩

/-- A semver range whose events are listed fixed-first, i.e. not yet in
sorted order. -/
def ex9Range : AffectsRange :=
  ⟨TypeSemver, [⟨"", "1.18.6"⟩, ⟨"0", ""⟩]⟩

/-! ## Call-stack summarizer (cmd/govulncheck)

`summarizeCallStack`, `highest`, `lowest`, `pkgPath` and `funcName` are in
the source; the `vulncheck.FuncNode` type they read is not, and is
modelled from the spec (§3): "Each node has: package path; function name;
optional receiver type (may be pointer-prefixed)". -/

/-- Modelled from the spec (§3): a call-graph function node.  `str` is the
node's display form (`FuncNode.String()`), used by `funcName`. -/
structure FuncNode where
  pkgPath : String
  recvType : String
  str : String
  deriving DecidableEq, Repr, Inhabited

/-- An entry of a call stack: its function node. -/
structure StackEntry where
  function : FuncNode
  deriving DecidableEq, Repr, Inhabited

/-- Index of the last `'.'` in a character list, if any. -/
def lastDotIdx : List Char → Option Nat
  | [] => none
  | c :: cs =>
    match lastDotIdx cs with
    | some i => some (i + 1)
    | none => if c = '.' then some 0 else none

/-- `pkgPath` from cmd/govulncheck: the node's package path, or, when that
is empty, its receiver type stripped of a leading `*` and cut at the last
dot (when that dot is not at position 0). -/
def pkgPathOf (fn : FuncNode) : String :=
  if fn.pkgPath ≠ "" then fn.pkgPath
  else
    let cs := match fn.recvType.toList with
      | '*' :: rest => rest
      | cs => cs
    match lastDotIdx cs with
    | some i => if 0 < i then ⟨cs.take i⟩ else ⟨cs⟩
    | none => ⟨cs⟩

/-- `funcName` from cmd/govulncheck: the node's display form stripped of a
leading `*`. -/
def funcName (fn : FuncNode) : String :=
  match fn.str.toList with
  | '*' :: rest => ⟨rest⟩
  | cs => ⟨cs⟩

/-- `highest` from cmd/govulncheck: the entry with the smallest index
satisfying `p` (`none` models the `-1` return). -/
def highestIdx (p : StackEntry → Bool) : List StackEntry → Option Nat
  | [] => none
  | e :: es => if p e then some 0 else (highestIdx p es).map (· + 1)

/-- `lowest` from cmd/govulncheck: the entry with the largest index
satisfying `p` (`none` models the `-1` return). -/
def lowestIdx (p : StackEntry → Bool) : List StackEntry → Option Nat
  | [] => none
  | e :: es =>
    match lowestIdx p es with
    | some i => some (i + 1)
    | none => if p e then some 0 else none

/-- The frame predicate for the top frame: its package is a top-level
package. -/
def isTopFrame (topPkgs : List String) (e : StackEntry) : Bool :=
  topPkgs.contains (pkgPathOf e.function)

/-- The frame predicate for the vuln frame: its package is the vulnerable
package. -/
def isVulnFrame (vulnPkg : String) (e : StackEntry) : Bool :=
  pkgPathOf e.function = vulnPkg

/-- `summarizeCallStack` from cmd/govulncheck. -/
def summarizeCallStack (cs : List StackEntry) (topPkgs : List String)
    (vulnPkg : String) : String :=
  match lowestIdx (isTopFrame topPkgs) cs with
  | none => ""
  | some iTop =>
    match highestIdx (isVulnFrame vulnPkg) (cs.drop (iTop + 1)) with
    | none => ""
    | some j =>
      let iVuln := j + (iTop + 1)
      let topName := funcName (cs.getD iTop default).function
      let vulnName := funcName (cs.getD iVuln default).function
      if iVuln = iTop + 1 then topName ++ " calls " ++ vulnName
      else
        topName ++ " calls " ++ funcName (cs.getD (iTop + 1) default).function ++
          ", which eventually calls " ++ vulnName

/-- The claim's reading of `summarizeCallStack`: the top frame is the
lowest-indexed frame in a top-level package (a forward search), and the
vuln frame is the highest-indexed frame strictly after it in the
vulnerable package (a backward search). -/
def claimSummarizeCallStack (cs : List StackEntry) (topPkgs : List String)
    (vulnPkg : String) : String :=
  match highestIdx (isTopFrame topPkgs) cs with
  | none => ""
  | some iTop =>
    match lowestIdx (isVulnFrame vulnPkg) (cs.drop (iTop + 1)) with
    | none => ""
    | some j =>
      let iVuln := j + (iTop + 1)
      let topName := funcName (cs.getD iTop default).function
      let vulnName := funcName (cs.getD iVuln default).function
      if iVuln = iTop + 1 then topName ++ " calls " ++ vulnName
      else
        topName ++ " calls " ++ funcName (cs.getD (iTop + 1) default).function ++
          ", which eventually calls " ++ vulnName

/-- A concrete stack with two frames in the user's top-level package
followed by one frame in the vulnerable package. -/
def ex3Stack : List StackEntry :=
  [⟨⟨"example.com/top", "", "top.F1"⟩⟩,
   ⟨⟨"example.com/top", "", "top.F2"⟩⟩,
   ⟨⟨"example.com/vuln", "", "vuln.V"⟩⟩]

/-! ## CVE records and `handleCVE` (internal/worker/update.go)

The `store` package and `cveschema` are not in the source tree; their
record shape and constants are modelled from the spec (§3, §4.11).
`handleCVE`, the batch skip test, the directory walk and the grouping are
translated from `internal/worker/update.go`. -/

/-- Modelled from the spec (§3): the fields of a parsed CVE that the update
coordinator reads: its ID and its state (`PUBLIC`, `RESERVED`, ...). -/
structure CVE where
  id : String
  state : String
  deriving DecidableEq, Repr, Inhabited

/-- The triage classifier's result (`triageResult`): the possibly affected
module path. -/
structure TriageResult where
  modulePath : String
  deriving DecidableEq, Repr, Inhabited

/-- Modelled from the spec (§3): a CVE record of the store. -/
structure CVERecord where
  id : String
  path : String
  blobHash : String
  commitHash : String
  cveState : String
  triageState : String
  triageStateReason : String
  module : String
  cve : Option CVE
  issueReference : String
  issueCreatedAt : Nat
  deriving DecidableEq, Repr, Inhabited

/-- Modelled from the spec (§3): the `PUBLIC` CVE state. -/
def StatePublic : String := "PUBLIC"

/-- Modelled from the spec (§4.11): the four triage states, stored as
strings. -/
def TriageStateNeedsIssue : String := "NeedsIssue"

/-- See `TriageStateNeedsIssue`. -/
def TriageStateNoActionNeeded : String := "NoActionNeeded"

/-- See `TriageStateNeedsIssue`. -/
def TriageStateIssueCreated : String := "IssueCreated"

/-- See `TriageStateNeedsIssue`. -/
def TriageStateUpdatedSinceIssueCreation : String := "UpdatedSinceIssueCreation"

/-- A CVE file of the repo commit (`repoFile`); hashes are strings. -/
structure RepoFile where
  dirPath : String
  filename : String
  treeHash : String
  blobHash : String
  year : Nat
  number : Nat
  deriving DecidableEq, Repr, Inhabited

/-- `path.Join` of a directory and a file name. -/
def pathJoin (dir file : String) : String :=
  if dir = "" then file else dir ++ "/" ++ file

/-- `idFromFilename`: the file name with its extension removed (the CVE
file names carry no directory component). -/
def idFromFilename (name : String) : String :=
  match lastDotIdx name.toList with
  | some i => ⟨name.toList.take i⟩
  | none => name

/-- Modelled from the spec (§3): `store.NewCVERecord` builds a fresh record
from the CVE, its path in the repo and its blob hash. -/
def newCVERecord (cve : CVE) (pathname blobHash : String) : CVERecord :=
  { id := cve.id, path := pathname, blobHash := blobHash, commitHash := "",
    cveState := cve.state, triageState := "", triageStateReason := "",
    module := "", cve := none, issueReference := "", issueCreatedAt := 0 }

/-- The triage result computed by `handleCVE`: the classifier runs only for
public CVEs whose ID is not already known. -/
def triageOf (knownIDs : List String) (affectedModule : CVE → Option TriageResult)
    (cve : CVE) : Option TriageResult :=
  if cve.state = StatePublic ∧ ¬ knownIDs.contains cve.id then affectedModule cve
  else none

/-- The module value recorded in the `UpdatedSinceIssueCreation` reason. -/
def modOf : Option TriageResult → String
  | some r => r.modulePath
  | none => ""

/-- `handleCVE` from internal/worker/update.go: decides the record written
for one CVE file (`readCVE` models decoding the JSON blob with the given
hash); returns the added flag and the record, or the unknown-triage-state
error. -/
def handleCVE (knownIDs : List String) (commitHash : String)
    (affectedModule : CVE → Option TriageResult) (readCVE : String → CVE)
    (f : RepoFile) (old : Option CVERecord) : Except String (Bool × CVERecord) :=
  let cve := readCVE f.blobHash
  let pathname := pathJoin f.dirPath f.filename
  let result := triageOf knownIDs affectedModule cve
  match old with
  | none =>
    let cr := { newCVERecord cve pathname f.blobHash with commitHash := commitHash }
    match result with
    | some res =>
      .ok (true, { cr with triageState := TriageStateNeedsIssue,
                           module := res.modulePath, cve := some cve })
    | none =>
      if knownIDs.contains cve.id then
        .ok (true, { cr with triageState := TriageStateNoActionNeeded,
                             triageStateReason := "already in vuln DB" })
      else .ok (true, { cr with triageState := TriageStateNoActionNeeded })
  | some o =>
    let m := { o with path := pathname, blobHash := f.blobHash,
                      cveState := cve.state, commitHash := commitHash }
    if o.triageState = TriageStateNoActionNeeded then
      match result with
      | some res =>
        .ok (false, { m with triageState := TriageStateNeedsIssue,
                             module := res.modulePath })
      | none => .ok (false, m)
    else if o.triageState = TriageStateNeedsIssue then
      match result with
      | none =>
        .ok (false, { m with triageState := TriageStateNoActionNeeded,
                             module := "", cve := none })
      | some _ => .ok (false, m)
    else if o.triageState = TriageStateIssueCreated ∨
        o.triageState = TriageStateUpdatedSinceIssueCreation then
      .ok (false, { m with triageState := TriageStateUpdatedSinceIssueCreation,
                           triageStateReason :=
                             "CVE changed; affected module = \"" ++ modOf result ++ "\"" })
    else .error ("unknown TriageState: \"" ++ o.triageState ++ "\"")

/-- What `updateBatch` does with one file: skipped, or written (added or
modified), or failed. -/
inductive FileOutcome
  | unchanged
  | written (added : Bool) (rec : CVERecord)
  deriving DecidableEq, Repr

/-- The per-file step of `updateBatch`'s transaction body: a file whose
stored record already carries its blob hash is skipped; otherwise
`handleCVE` runs. -/
def processRepoFile (knownIDs : List String) (commitHash : String)
    (affectedModule : CVE → Option TriageResult) (readCVE : String → CVE)
    (idToRecord : String → Option CVERecord) (f : RepoFile) :
    Except String FileOutcome :=
  let id := idFromFilename f.filename
  match idToRecord id with
  | some o =>
    if o.blobHash = f.blobHash then .ok .unchanged
    else
      match handleCVE knownIDs commitHash affectedModule readCVE f (some o) with
      | .ok (a, r) => .ok (.written a r)
      | .error e => .error e
  | none =>
    match handleCVE knownIDs commitHash affectedModule readCVE f none with
    | .ok (a, r) => .ok (.written a r)
    | .error e => .error e

/-! ## `updateDirectory` (internal/worker/update.go) -/

/-- A store operation performed by `updateDirectory`: a directory-hash
write or a batch transaction. -/
inductive DirEffect
  | setDirHash (path hash : String)
  | transaction (batch : List RepoFile)
  deriving DecidableEq, Repr

/-- Firestore's 500-writes-per-transaction limit. -/
def maxTransactionWrites : Nat := 500

/-- The batch slicing `dirFiles[i:j]` of `updateDirectory`'s loop (the
fuel, the list's length, bounds the iteration count: every step consumes
at least one file). -/
def chunkFilesAux : Nat → List RepoFile → List (List RepoFile)
  | 0, _ => []
  | _, [] => []
  | fuel + 1, x :: xs =>
    (x :: xs).take maxTransactionWrites ::
      chunkFilesAux fuel ((x :: xs).drop maxTransactionWrites)

/-- See `chunkFilesAux`. -/
def chunkFiles (l : List RepoFile) : List (List RepoFile) :=
  chunkFilesAux l.length l

/-- The per-directory statistics of an update. -/
structure UpdateStats where
  numProcessed : Nat
  numAdded : Nat
  numModified : Nat
  deriving DecidableEq, Repr, Inhabited

/-- The batch loop of `updateDirectory`: each batch is one transaction; a
failing batch aborts the directory with zeroed stats. -/
def processBatches (runBatch : List RepoFile → Except String (Nat × Nat)) :
    List (List RepoFile) → UpdateStats → List DirEffect × Except String UpdateStats
  | [], stats => ([], .ok stats)
  | b :: bs, stats =>
    match runBatch b with
    | .error e => ([DirEffect.transaction b], .error e)
    | .ok (adds, mods) =>
      let next := processBatches runBatch bs
        { numProcessed := stats.numProcessed + b.length,
          numAdded := stats.numAdded + adds,
          numModified := stats.numModified + mods }
      (DirEffect.transaction b :: next.1, next.2)

/-- `updateDirectory` from internal/worker/update.go: given the stored
directory hash and the outcome of each batch transaction, the store
operations it performs and its result. -/
def updateDirectory (dbHash : String)
    (runBatch : List RepoFile → Except String (Nat × Nat))
    (dirFiles : List RepoFile) : List DirEffect × Except String UpdateStats :=
  let dirPath := (dirFiles.headD default).dirPath
  let dirHash := (dirFiles.headD default).treeHash
  if dirHash = dbHash then ([], .ok ⟨0, 0, 0⟩)
  else
    let run := processBatches runBatch (chunkFiles dirFiles) ⟨0, 0, 0⟩
    match run.2 with
    | .error e => (DirEffect.setDirHash dirPath "in progress" :: run.1, .error e)
    | .ok stats =>
      (DirEffect.setDirHash dirPath "in progress" ::
        run.1 ++ [DirEffect.setDirHash dirPath dirHash], .ok stats)

/-! ## `CreateIssues` (issue emitter) -/

/-- The external collaborators of `CreateIssues`: the reference string the
issue client returns for the ticket of a record, and the clock. -/
structure IssueEnv where
  refOf : String → String
  now : Nat

/-- `tx.SetCVERecord`: replace the record with the same ID. -/
def setRecord (store : List CVERecord) (r : CVERecord) : List CVERecord :=
  store.map fun x => if x.id = r.id then r else x

/-- `tx.GetCVERecords(id, id)`: the stored record with this ID. -/
def lookupRecord (store : List CVERecord) (id : String) : Option CVERecord :=
  store.find? fun x => x.id = id

/-- The transaction body of `CreateIssues`: re-read the record and set its
triage state, issue reference and creation time. -/
def issueTransaction (env : IssueEnv) (store : List CVERecord) (id ref : String) :
    List CVERecord :=
  match lookupRecord store id with
  | none => store
  | some r =>
    setRecord store { r with triageState := TriageStateIssueCreated,
                             issueReference := ref, issueCreatedAt := env.now }

/-- The sweep loop of `CreateIssues` over the records listed in state
`NeedsIssue`: honours the limit, skips records already carrying issue
fields, and otherwise creates the ticket and runs the transaction.
Returns the final store and the IDs for which a ticket was created. -/
def createIssuesLoop (env : IssueEnv) (limit : Nat) :
    List CVERecord → List CVERecord → Nat → List CVERecord × List String
  | [], store, _ => (store, [])
  | r :: rs, store, numCreated =>
    if 0 < limit ∧ limit ≤ numCreated then (store, [])
    else if r.issueReference ≠ "" ∨ r.issueCreatedAt ≠ 0 then
      createIssuesLoop env limit rs store numCreated
    else
      let ref := env.refOf r.id
      let next := createIssuesLoop env limit rs (issueTransaction env store r.id ref)
        (numCreated + 1)
      (next.1, r.id :: next.2)

/-- `CreateIssues`: sweep the `NeedsIssue` records of the store. -/
def createIssues (env : IssueEnv) (limit : Nat) (store : List CVERecord) :
    List CVERecord × List String :=
  createIssuesLoop env limit
    (store.filter fun r => r.triageState = TriageStateNeedsIssue) store 0

/-- The `IssueCreated` field invariant of the spec: such a record carries a
non-empty issue reference and a non-zero creation time. -/
def recordInv (r : CVERecord) : Prop :=
  r.triageState = TriageStateIssueCreated →
    r.issueReference ≠ "" ∧ r.issueCreatedAt ≠ 0

instance (r : CVERecord) : Decidable (recordInv r) := by
  unfold recordInv; infer_instance

/-! ## `groupFilesByDirectory` (internal/worker/update.go) -/

/-- The grouping loop of `groupFilesByDirectory`: files are appended to the
current run, which is flushed when the directory path changes. -/
def groupLoop : List RepoFile → List (List RepoFile) → List RepoFile →
    List (List RepoFile)
  | [], result, curDir => if curDir.isEmpty then result else result ++ [curDir]
  | f :: fs, result, curDir =>
    match curDir with
    | [] => groupLoop fs result [f]
    | c :: _ =>
      if f.dirPath ≠ c.dirPath then groupLoop fs (result ++ [curDir]) [f]
      else groupLoop fs result (curDir ++ [f])

/-- `dir[0].dirPath` of a run. -/
def groupHeadPath (g : List RepoFile) : String := (g.headD default).dirPath

/-- The duplicate-directory check of `groupFilesByDirectory`. -/
def checkSeen : List (List RepoFile) → List String → Except String Unit
  | [], _ => .ok ()
  | g :: gs, seen =>
    let d := groupHeadPath g
    if d ∈ seen then
      .error ("directory " ++ d ++ " is not contiguous in the sorted list of files")
    else checkSeen gs (d :: seen)

/-- `groupFilesByDirectory` from internal/worker/update.go. -/
def groupFilesByDirectory (files : List RepoFile) :
    Except String (List (List RepoFile)) :=
  if files.isEmpty then .ok []
  else
    let result := groupLoop files [] []
    match checkSeen result [] with
    | .ok _ => .ok result
    | .error e => .error e

/-- The directory paths that start a run of the grouping; the claim's
contiguity condition is that no path starts more than one run. -/
def runStartPaths (files : List RepoFile) : List String :=
  (groupLoop files [] []).map groupHeadPath

/-! ## Lemmas on the semver engine -/

theorem svCompare_antisymm (a b : String) : svCompare a b = -svCompare b a := by
  unfold svCompare
  rcases parseSemver a with ⟨a1, a2, a3⟩
  rcases parseSemver b with ⟨b1, b2, b3⟩
  simp only
  split_ifs <;> omega

theorem walkStep_eq_claimStep (v : String) (b : Bool) (e : RangeEvent)
    (h : eventOneOf e) : walkStep v b e = claimStep v b e := by
  have hi := svCompare_antisymm (canonicalizeSemverPrefix e.introduced) v
  have hf := svCompare_antisymm (canonicalizeSemverPrefix e.fixed) v
  rcases h with ⟨h1, h2⟩ | ⟨h1, h2⟩ <;> cases b <;>
      simp only [walkStep, claimStep, h1, h2, ne_eq, not_false_eq_true,
        not_true_eq_false, Bool.not_false, Bool.not_true, true_and, false_and,
        and_true, and_false, if_false, if_true, ite_false, ite_true,
        Bool.false_eq_true, Bool.true_eq_false]
  · -- introduced set, flag false
    by_cases h0 : e.introduced = "0" <;> simp only [h0, if_true, if_false, ite_true, ite_false]
    · simp
    · by_cases hc : svCompare (canonicalizeSemverPrefix e.introduced) v ≤ 0
      · have : svCompare v (canonicalizeSemverPrefix e.introduced) ≥ 0 := by omega
        simp [h0, hc, this]
      · have : ¬ svCompare v (canonicalizeSemverPrefix e.introduced) ≥ 0 := by omega
        simp [h0, hc, this]
  · -- introduced set, flag true
    split_ifs <;> simp_all
  · -- fixed set, flag false
    split_ifs <;> simp_all
  · -- fixed set, flag true
    by_cases hc : svCompare (canonicalizeSemverPrefix e.fixed) v ≤ 0
    · have : ¬ svCompare v (canonicalizeSemverPrefix e.fixed) < 0 := by omega
      simp [hc, this]
    · have : svCompare v (canonicalizeSemverPrefix e.fixed) < 0 := by omega
      simp [hc, this]

theorem walk_eq_claimWalk (v : String) (l : List RangeEvent)
    (h : ∀ e ∈ l, eventOneOf e) (b : Bool) :
    l.foldl (walkStep v) b = l.foldl (claimStep v) b := by
  induction l generalizing b with
  | nil => rfl
  | cons e es ih =>
    simp only [List.foldl_cons]
    rw [walkStep_eq_claimStep v b e (h e (by simp))]
    exact ih (fun f hf => h f (by simp [hf])) _

theorem eventLess_eq_claimLess (e1 e2 : RangeEvent)
    (h1 : eventOneOf e1) (h2 : eventOneOf e2) :
    eventLess e1 e2 = claimLess e1 e2 := by
  rcases h1 with ⟨ha, hb⟩ | ⟨ha, hb⟩ <;> rcases h2 with ⟨hc, hd⟩ | ⟨hc, hd⟩ <;>
    simp [eventLess, claimLess, eventVersion, ha, hb, hc, hd]

theorem mem_insertEvent (lt : RangeEvent → RangeEvent → Bool) (e x : RangeEvent) :
    ∀ l, x ∈ insertEvent lt e l → x = e ∨ x ∈ l := by
  intro l
  induction l with
  | nil => simp [insertEvent]
  | cons f fs ih =>
    simp only [insertEvent]
    split_ifs with hlt
    · intro hx
      rcases List.mem_cons.mp hx with h | h
      · exact Or.inl h
      · exact Or.inr h
    · intro hx
      rcases List.mem_cons.mp hx with h | h
      · exact Or.inr (by simp [h])
      · rcases ih h with h' | h'
        · exact Or.inl h'
        · exact Or.inr (by simp [h'])

theorem insertEvent_congr (lt lt' : RangeEvent → RangeEvent → Bool)
    (P : RangeEvent → Prop) (hcong : ∀ a b, P a → P b → lt a b = lt' a b)
    (e : RangeEvent) (he : P e) :
    ∀ l, (∀ x ∈ l, P x) → insertEvent lt e l = insertEvent lt' e l := by
  intro l
  induction l with
  | nil => intro _; rfl
  | cons f fs ih =>
    intro hl
    simp only [insertEvent]
    rw [hcong e f he (hl f (by simp))]
    split_ifs
    · rfl
    · rw [ih (fun x hx => hl x (by simp [hx]))]

theorem sortEvents_congr (lt lt' : RangeEvent → RangeEvent → Bool)
    (P : RangeEvent → Prop) (hcong : ∀ a b, P a → P b → lt a b = lt' a b) :
    ∀ (l acc : List RangeEvent), (∀ x ∈ l, P x) → (∀ x ∈ acc, P x) →
      List.foldl (fun acc e => insertEvent lt e acc) acc l =
        List.foldl (fun acc e => insertEvent lt' e acc) acc l := by
  intro l
  induction l with
  | nil => intro acc _ _; rfl
  | cons e es ih =>
    intro acc hl hacc
    simp only [List.foldl_cons]
    rw [insertEvent_congr lt lt' P hcong e (hl e (by simp)) acc hacc]
    refine ih _ (fun x hx => hl x (by simp [hx])) ?_
    intro x hx
    rcases mem_insertEvent lt' e x acc hx with h | h
    · exact h ▸ hl e (by simp)
    · exact hacc x h

theorem insertEvent_perm (lt : RangeEvent → RangeEvent → Bool) (e : RangeEvent) :
    ∀ l : List RangeEvent, List.Perm (insertEvent lt e l) (e :: l) := by
  intro l
  induction l with
  | nil => simp [insertEvent]
  | cons f fs ih =>
    simp only [insertEvent]
    split_ifs
    · exact List.Perm.refl _
    · exact List.Perm.trans (List.Perm.cons f ih) (List.Perm.swap e f fs)

theorem sortEvents_foldl_perm (lt : RangeEvent → RangeEvent → Bool) :
    ∀ l acc : List RangeEvent,
      List.Perm (List.foldl (fun acc e => insertEvent lt e acc) acc l) (acc ++ l) := by
  intro l
  induction l with
  | nil => intro acc; simp
  | cons e es ih =>
    intro acc
    simp only [List.foldl_cons]
    refine List.Perm.trans (ih _) ?_
    refine List.Perm.trans (List.Perm.append_right es (insertEvent_perm lt e acc)) ?_
    exact List.perm_middle.symm


theorem affectsLoop_true_iff (v : String) :
    ∀ (l : List AffectsRange) (present : Bool),
      affectsLoop v l present = true ↔
        (∃ r ∈ l, r.type = TypeSemver ∧ containsSemver r v = true) ∨
          (present = false ∧ ∀ r ∈ l, r.type ≠ TypeSemver) := by
  intro l
  induction l with
  | nil =>
    intro present
    cases present <;> simp [affectsLoop]
  | cons r rs ih =>
    intro present
    simp only [affectsLoop]
    split_ifs with h1 h2
    · rw [ih]
      constructor
      · rintro (⟨x, hx, hs⟩ | ⟨hp, hall⟩)
        · exact Or.inl ⟨x, List.mem_cons_of_mem r hx, hs⟩
        · refine Or.inr ⟨hp, fun x hx => ?_⟩
          rcases List.mem_cons.mp hx with h | h
          · exact h ▸ h1
          · exact hall x h
      · rintro (⟨x, hx, hs⟩ | ⟨hp, hall⟩)
        · rcases List.mem_cons.mp hx with h | h
          · exact absurd (h ▸ hs.1) h1
          · exact Or.inl ⟨x, h, hs⟩
        · exact Or.inr ⟨hp, fun x hx => hall x (List.mem_cons_of_mem r hx)⟩
    · constructor
      · intro _
        exact Or.inl ⟨r, by simp, not_not.mp h1, h2⟩
      · intro _
        rfl
    · rw [ih]
      constructor
      · rintro (⟨x, hx, hs⟩ | ⟨hp, _⟩)
        · exact Or.inl ⟨x, List.mem_cons_of_mem r hx, hs⟩
        · exact absurd hp (by simp)
      · rintro (⟨x, hx, hs⟩ | ⟨_, hall⟩)
        · rcases List.mem_cons.mp hx with h | h
          · exact absurd (h ▸ hs.2) h2
          · exact Or.inl ⟨x, h, hs⟩
        · exact absurd (not_not.mp h1) (hall r (by simp))

/-! ## The claims on the semver engine -/

/-- C1: `containsSemver` returns false for non-semver ranges, true for
event-less ranges, and otherwise stably sorts the events
(`introduced="0"` first, all others by the version they carry) and walks
them with the affected flag exactly as the spec describes — assuming the
documented event shape (exactly one of introduced/fixed set).  On the
spec's example range, `v1.18.6` is not contained and `v1.18.1` is. -/
theorem claim_C1_containsSemver (ar : AffectsRange) (v : String)
    (h : ∀ e ∈ ar.events, eventOneOf e) :
    containsSemver ar v = claimContainsSemver ar v ∧
    containsSemver ex1Range "v1.18.6" = false ∧
    containsSemver ex1Range "v1.18.1" = true := by
  refine ⟨?_, by decide, by decide⟩
  unfold containsSemver claimContainsSemver
  split_ifs with h1 h2
  · rfl
  · rfl
  · have hsort : sortEvents eventLess ar.events = sortEvents claimLess ar.events :=
      sortEvents_congr eventLess claimLess eventOneOf eventLess_eq_claimLess
        ar.events [] h (by simp)
    have hperm : List.Perm (sortEvents claimLess ar.events) ar.events := by
      simpa using sortEvents_foldl_perm claimLess ar.events []
    have hmem : ∀ e ∈ sortEvents claimLess ar.events, eventOneOf e :=
      fun e he => h e (hperm.mem_iff.mp he)
    unfold walkEvents
    rw [hsort]
    exact walk_eq_claimWalk (canonicalizeSemverPrefix v)
      (sortEvents claimLess ar.events) hmem false

/-- Witness for C1 at the spec's example range. -/
theorem claim_C1_containsSemver_witness :
    (∀ e ∈ ex1Range.events, eventOneOf e) ∧
    (containsSemver ex1Range "v1.18.1" = claimContainsSemver ex1Range "v1.18.1" ∧
     containsSemver ex1Range "v1.18.6" = false ∧
     containsSemver ex1Range "v1.18.1" = true) :=
  ⟨by decide, claim_C1_containsSemver ex1Range "v1.18.1" (by decide)⟩

/-- C2: `affectsSemver` returns true exactly when the affects list is
empty, or contains no semver-typed range, or some semver-typed range
contains the version. -/
theorem claim_C2_affectsSemver (a : List AffectsRange) (v : String) :
    affectsSemver a v = true ↔
      a = [] ∨ (∀ r ∈ a, r.type ≠ TypeSemver) ∨
        ∃ r ∈ a, r.type = TypeSemver ∧ containsSemver r v = true := by
  unfold affectsSemver
  split_ifs with h
  · simp [h]
  · rw [affectsLoop_true_iff]
    constructor
    · rintro (⟨x, hx, hs⟩ | ⟨_, hall⟩)
      · exact Or.inr (Or.inr ⟨x, hx, hs⟩)
      · exact Or.inr (Or.inl hall)
    · rintro (rfl | hall | ⟨x, hx, hs⟩)
      · exact absurd rfl h
      · exact Or.inr ⟨rfl, hall⟩
      · exact Or.inl ⟨x, hx, hs⟩

/-- C9, counterexample: `containsSemver` does not leave the range's event
list unchanged — on a range listed fixed-first it reorders the events in
place. -/
theorem claim_C9_counterexample :
    (containsSemverPost ex9Range).events = [⟨"0", ""⟩, ⟨"", "1.18.6"⟩] ∧
    ex9Range.events = [⟨"", "1.18.6"⟩, ⟨"0", ""⟩] ∧
    containsSemverPost ex9Range ≠ ex9Range := by
  refine ⟨by decide, by decide, by decide⟩

/-- C9 as amended: `containsSemver` leaves the range's type unchanged and
permutes its event list in place — it stably sorts the events when the
range is semver-typed with a non-empty event list, and leaves the range
untouched otherwise. -/
theorem claim_C9_amended_containsSemver_events (ar : AffectsRange) :
    (containsSemverPost ar).type = ar.type ∧
    List.Perm (containsSemverPost ar).events ar.events ∧
    (ar.type ≠ TypeSemver ∨ ar.events = [] → containsSemverPost ar = ar) ∧
    (ar.type = TypeSemver → ar.events ≠ [] →
      (containsSemverPost ar).events = sortEvents eventLess ar.events) := by
  unfold containsSemverPost
  split_ifs with h1 h2
  · exact ⟨rfl, List.Perm.refl _, fun _ => rfl, fun ht _ => absurd ht h1⟩
  · exact ⟨rfl, List.Perm.refl _, fun _ => rfl, fun _ he => absurd h2 he⟩
  · refine ⟨rfl, ?_, ?_, fun _ _ => rfl⟩
    · simpa using sortEvents_foldl_perm eventLess ar.events []
    · rintro (ht | he)
      · exact absurd ht h1
      · exact absurd he h2

/-- Witness for the amended C9: the sorting case at the example range and
the untouched case at a non-semver range. -/
theorem claim_C9_amended_witness :
    ((ex9Range.type = TypeSemver → ex9Range.events ≠ [] →
        (containsSemverPost ex9Range).events = sortEvents eventLess ex9Range.events) ∧
      (containsSemverPost ex9Range).events = sortEvents eventLess ex9Range.events) ∧
    containsSemverPost ⟨"GIT", []⟩ = (⟨"GIT", []⟩ : AffectsRange) :=
  ⟨⟨(claim_C9_amended_containsSemver_events ex9Range).2.2.2,
    (claim_C9_amended_containsSemver_events ex9Range).2.2.2 (by decide) (by decide)⟩,
   (claim_C9_amended_containsSemver_events ⟨"GIT", []⟩).2.2.1 (Or.inr (by decide))⟩

/-! ## Lemmas on the call-stack index searches -/

theorem getD_drop (l : List StackEntry) : ∀ (k j : Nat),
    (l.drop k).getD j default = l.getD (k + j) default := by
  induction l with
  | nil => intro k j; simp
  | cons e es ih =>
    intro k j
    cases k with
    | zero => simp
    | succ k =>
      simp only [List.drop_succ_cons]
      rw [ih k j]
      have h : k + 1 + j = (k + j) + 1 := by omega
      rw [h, List.getD_cons_succ]

theorem lowestIdx_none_iff (p : StackEntry → Bool) :
    ∀ l : List StackEntry, lowestIdx p l = none ↔
      ∀ j < l.length, p (l.getD j default) = false := by
  intro l
  induction l with
  | nil => simp [lowestIdx]
  | cons e es ih =>
    simp only [lowestIdx]
    cases hes : lowestIdx p es with
    | some i =>
      constructor
      · intro h
        exact absurd h (by simp)
      · intro hall
        have hnone : lowestIdx p es = none := ih.mpr (fun j hj => by
          have := hall (j + 1) (by simpa using Nat.succ_lt_succ hj)
          rwa [List.getD_cons_succ] at this)
        rw [hnone] at hes
        exact absurd hes (by simp)
    | none =>
      split_ifs with hp
      · constructor
        · intro h
          exact absurd h (by simp)
        · intro hall
          have h0 := hall 0 (by simp)
          rw [List.getD_cons_zero, hp] at h0
          exact absurd h0 (by simp)
      · have hpe : p e = false := by simpa using hp
        constructor
        · intro _ j hj
          cases j with
          | zero => rw [List.getD_cons_zero]; exact hpe
          | succ j =>
            rw [List.getD_cons_succ]
            exact ih.mp hes j (by simpa using hj)
        · intro _
          rfl

theorem lowestIdx_some_iff (p : StackEntry → Bool) :
    ∀ (l : List StackEntry) (i : Nat), lowestIdx p l = some i ↔
      i < l.length ∧ p (l.getD i default) = true ∧
        ∀ j, i < j → j < l.length → p (l.getD j default) = false := by
  intro l
  induction l with
  | nil => intro i; simp [lowestIdx]
  | cons e es ih =>
    intro i
    simp only [lowestIdx]
    cases hes : lowestIdx p es with
    | some k =>
      simp only [Option.some.injEq]
      obtain ⟨hk1, hk2, hk3⟩ := (ih k).mp hes
      constructor
      · rintro rfl
        refine ⟨by simpa using Nat.succ_lt_succ hk1, by rwa [List.getD_cons_succ], ?_⟩
        intro j hj1 hj2
        cases j with
        | zero => omega
        | succ j =>
          rw [List.getD_cons_succ]
          exact hk3 j (by omega) (by simpa using hj2)
      · rintro ⟨h1, h2, h3⟩
        cases i with
        | zero =>
          exfalso
          have := h3 (k + 1) (by omega) (by simpa using Nat.succ_lt_succ hk1)
          rw [List.getD_cons_succ, hk2] at this
          exact absurd this (by simp)
        | succ i =>
          have hi : lowestIdx p es = some i := (ih i).mpr
            ⟨by simpa using h1, by rwa [List.getD_cons_succ] at h2, fun j hj1 hj2 => by
              have := h3 (j + 1) (by omega) (by simpa using Nat.succ_lt_succ hj2)
              rwa [List.getD_cons_succ] at this⟩
          rw [hes] at hi
          have := Option.some.inj hi
          omega
    | none =>
      have hall := (lowestIdx_none_iff p es).mp hes
      split_ifs with hp
      · simp only [Option.some.injEq]
        constructor
        · rintro rfl
          refine ⟨by simp, by rwa [List.getD_cons_zero], ?_⟩
          intro j hj1 hj2
          cases j with
          | zero => omega
          | succ j =>
            rw [List.getD_cons_succ]
            exact hall j (by simpa using hj2)
        · rintro ⟨h1, h2, h3⟩
          cases i with
          | zero => rfl
          | succ i =>
            exfalso
            rw [List.getD_cons_succ] at h2
            have := hall i (by simpa using h1)
            rw [h2] at this
            exact absurd this (by simp)
      · have hpe : p e = false := by simpa using hp
        constructor
        · intro h
          exact absurd h (by simp)
        · rintro ⟨h1, h2, h3⟩
          exfalso
          cases i with
          | zero =>
            rw [List.getD_cons_zero, hpe] at h2
            exact absurd h2 (by simp)
          | succ i =>
            rw [List.getD_cons_succ] at h2
            have := hall i (by simpa using h1)
            rw [h2] at this
            exact absurd this (by simp)

theorem highestIdx_none_iff (p : StackEntry → Bool) :
    ∀ l : List StackEntry, highestIdx p l = none ↔
      ∀ j < l.length, p (l.getD j default) = false := by
  intro l
  induction l with
  | nil => simp [highestIdx]
  | cons e es ih =>
    simp only [highestIdx]
    split_ifs with hp
    · constructor
      · intro h
        exact absurd h (by simp)
      · intro hall
        have h0 := hall 0 (by simp)
        rw [List.getD_cons_zero, hp] at h0
        exact absurd h0 (by simp)
    · rw [Option.map_eq_none', ih]
      have hpe : p e = false := by simpa using hp
      constructor
      · intro hall j hj
        cases j with
        | zero => rw [List.getD_cons_zero]; exact hpe
        | succ j =>
          rw [List.getD_cons_succ]
          exact hall j (by simpa using hj)
      · intro hall j hj
        have := hall (j + 1) (by simpa using Nat.succ_lt_succ hj)
        rwa [List.getD_cons_succ] at this

theorem highestIdx_some_iff (p : StackEntry → Bool) :
    ∀ (l : List StackEntry) (i : Nat), highestIdx p l = some i ↔
      i < l.length ∧ p (l.getD i default) = true ∧
        ∀ j < i, p (l.getD j default) = false := by
  intro l
  induction l with
  | nil => intro i; simp [highestIdx]
  | cons e es ih =>
    intro i
    simp only [highestIdx]
    split_ifs with hp
    · cases i with
      | zero => simp [hp]
      | succ i =>
        constructor
        · intro h
          exact absurd (Option.some.inj h) (by omega)
        · rintro ⟨h1, h2, h3⟩
          have := h3 0 (by omega)
          rw [List.getD_cons_zero, hp] at this
          exact absurd this (by simp)
    · rw [Option.map_eq_some']
      have hpe : p e = false := by simpa using hp
      cases i with
      | zero =>
        constructor
        · rintro ⟨k, _, hk1⟩
          exact absurd hk1 (by omega)
        · rintro ⟨_, h2, _⟩
          rw [List.getD_cons_zero, hpe] at h2
          exact absurd h2 (by simp)
      | succ i =>
        constructor
        · rintro ⟨k, hk, hk1⟩
          obtain rfl : k = i := by omega
          obtain ⟨h1, h2, h3⟩ := (ih k).mp hk
          refine ⟨by simpa using Nat.succ_lt_succ h1, by rwa [List.getD_cons_succ], ?_⟩
          intro j hj
          cases j with
          | zero => rw [List.getD_cons_zero]; exact hpe
          | succ j =>
            rw [List.getD_cons_succ]
            exact h3 j (by omega)
        · rintro ⟨h1, h2, h3⟩
          refine ⟨i, ?_, rfl⟩
          refine (ih i).mpr ⟨by simpa using h1, by rwa [List.getD_cons_succ] at h2, ?_⟩
          intro j hj
          have := h3 (j + 1) (by omega)
          rwa [List.getD_cons_succ] at this

/-! ## The claims on the call-stack summarizer -/

/-- C3, counterexample: on a stack with two consecutive top-level frames
followed by a vulnerable frame, `summarizeCallStack` picks the
highest-indexed top-level frame (the code's `lowest` scans from the end),
not the lowest-indexed one the claim mandates, so the produced summary
differs from the claim's. -/
theorem claim_C3_counterexample :
    summarizeCallStack ex3Stack ["example.com/top"] "example.com/vuln" =
      "top.F2 calls vuln.V" ∧
    claimSummarizeCallStack ex3Stack ["example.com/top"] "example.com/vuln" =
      "top.F1 calls top.F2, which eventually calls vuln.V" ∧
    summarizeCallStack ex3Stack ["example.com/top"] "example.com/vuln" ≠
      claimSummarizeCallStack ex3Stack ["example.com/top"] "example.com/vuln" :=
  ⟨by decide, by decide, by decide⟩

/-- C3 as amended: `summarizeCallStack` picks as top frame T the
HIGHEST-indexed frame whose package is a top-level package, then picks as
vuln frame U the LOWEST-indexed frame strictly after T whose package
equals the vulnerable package; if either is absent it returns the empty
string, and otherwise it returns "T.fn calls U.fn" when U is at index
T+1, and "T.fn calls M.fn, which eventually calls U.fn" with M the frame
at index T+1 otherwise (so the summary always mentions both T's function
and U's function). -/
theorem claim_C3_amended_summarizeCallStack (cs : List StackEntry)
    (topPkgs : List String) (vulnPkg : String) :
    ((∀ j < cs.length, isTopFrame topPkgs (cs.getD j default) = false) →
        summarizeCallStack cs topPkgs vulnPkg = "") ∧
    (∀ iT, iT < cs.length →
      isTopFrame topPkgs (cs.getD iT default) = true →
      (∀ j, iT < j → j < cs.length → isTopFrame topPkgs (cs.getD j default) = false) →
      ((∀ j, iT < j → j < cs.length → isVulnFrame vulnPkg (cs.getD j default) = false) →
          summarizeCallStack cs topPkgs vulnPkg = "") ∧
      (∀ iU, iT < iU → iU < cs.length →
        isVulnFrame vulnPkg (cs.getD iU default) = true →
        (∀ j, iT < j → j < iU → isVulnFrame vulnPkg (cs.getD j default) = false) →
        summarizeCallStack cs topPkgs vulnPkg =
          if iU = iT + 1 then
            funcName (cs.getD iT default).function ++ " calls " ++
              funcName (cs.getD iU default).function
          else
            funcName (cs.getD iT default).function ++ " calls " ++
              funcName (cs.getD (iT + 1) default).function ++
              ", which eventually calls " ++ funcName (cs.getD iU default).function)) := by
  constructor
  · intro hall
    have hlow : lowestIdx (isTopFrame topPkgs) cs = none :=
      (lowestIdx_none_iff _ cs).mpr hall
    unfold summarizeCallStack
    rw [hlow]
  · intro iT hT hTop hTopLast
    have hlow : lowestIdx (isTopFrame topPkgs) cs = some iT :=
      (lowestIdx_some_iff _ cs iT).mpr ⟨hT, hTop, hTopLast⟩
    constructor
    · intro hnv
      have hhigh : highestIdx (isVulnFrame vulnPkg) (cs.drop (iT + 1)) = none := by
        refine (highestIdx_none_iff _ _).mpr ?_
        intro j hj
        rw [List.length_drop] at hj
        rw [getD_drop]
        exact hnv (iT + 1 + j) (by omega) (by omega)
      unfold summarizeCallStack
      simp only [hlow, hhigh]
    · intro iU hTU hUlt hVuln hVulnFirst
      have hhigh : highestIdx (isVulnFrame vulnPkg) (cs.drop (iT + 1)) =
          some (iU - (iT + 1)) := by
        refine (highestIdx_some_iff _ _ _).mpr ⟨?_, ?_, ?_⟩
        · rw [List.length_drop]; omega
        · rw [getD_drop]
          have h : iT + 1 + (iU - (iT + 1)) = iU := by omega
          rw [h]
          exact hVuln
        · intro j hj
          rw [getD_drop]
          exact hVulnFirst (iT + 1 + j) (by omega) (by omega)
      unfold summarizeCallStack
      simp only [hlow, hhigh]
      have h : iU - (iT + 1) + (iT + 1) = iU := by omega
      simp only [h]

/-- Witness for the amended C3 at the concrete three-frame stack: the top
frame is the frame at index 1 and the vuln frame the adjacent one at
index 2. -/
theorem claim_C3_amended_witness :
    summarizeCallStack ex3Stack ["example.com/top"] "example.com/vuln" =
      "top.F2 calls vuln.V" := by
  have h := ((claim_C3_amended_summarizeCallStack ex3Stack ["example.com/top"]
      "example.com/vuln").2 1 (by decide) (by decide)
      (fun j h1 h2 => by
        have hj : j = 2 := by simp only [ex3Stack, List.length_cons, List.length_nil] at h2; omega
        subst hj; decide)).2 2 (by decide) (by decide) (by decide)
      (fun j h1 h2 => by omega)
  exact h.trans (by decide)

/-! ## Lemmas on the directory grouping -/

theorem groupLoop_join : ∀ (fs : List RepoFile) (result : List (List RepoFile))
    (curDir : List RepoFile),
    (groupLoop fs result curDir).join = result.join ++ curDir ++ fs := by
  intro fs
  induction fs with
  | nil =>
    intro result curDir
    simp only [groupLoop]
    split_ifs with h
    · simp [List.isEmpty_iff.mp h]
    · simp
  | cons f fs ih =>
    intro result curDir
    cases curDir with
    | nil =>
      simp only [groupLoop]
      rw [ih]
      simp
    | cons c cd =>
      simp only [groupLoop]
      split_ifs with h
      · rw [ih]
        simp
      · rw [ih]
        simp

theorem groupLoop_ne_nil : ∀ (fs : List RepoFile) (result : List (List RepoFile))
    (curDir : List RepoFile), (∀ g ∈ result, g ≠ []) →
    ∀ g ∈ groupLoop fs result curDir, g ≠ [] := by
  intro fs
  induction fs with
  | nil =>
    intro result curDir hres
    simp only [groupLoop]
    split_ifs with h
    · exact hres
    · intro g hg
      rcases List.mem_append.mp hg with hg | hg
      · exact hres g hg
      · have : g = curDir := by simpa using hg
        subst this
        simpa using (List.isEmpty_iff).not.mp h
  | cons f fs ih =>
    intro result curDir hres
    cases curDir with
    | nil => exact ih result [f] hres
    | cons c cd =>
      simp only [groupLoop]
      split_ifs with h
      · refine ih _ [f] ?_
        intro g hg
        rcases List.mem_append.mp hg with hg | hg
        · exact hres g hg
        · have : g = c :: cd := by simpa using hg
          subst this
          simp
      · exact ih result (c :: cd ++ [f]) hres

theorem groupLoop_homog : ∀ (fs : List RepoFile) (result : List (List RepoFile))
    (curDir : List RepoFile),
    (∀ g ∈ result, ∀ a ∈ g, ∀ b ∈ g, a.dirPath = b.dirPath) →
    (∀ a ∈ curDir, ∀ b ∈ curDir, a.dirPath = b.dirPath) →
    ∀ g ∈ groupLoop fs result curDir, ∀ a ∈ g, ∀ b ∈ g, a.dirPath = b.dirPath := by
  intro fs
  induction fs with
  | nil =>
    intro result curDir hres hcur
    simp only [groupLoop]
    split_ifs with h
    · exact hres
    · intro g hg
      rcases List.mem_append.mp hg with hg | hg
      · exact hres g hg
      · have : g = curDir := by simpa using hg
        subst this
        exact hcur
  | cons f fs ih =>
    intro result curDir hres hcur
    cases curDir with
    | nil =>
      refine ih result [f] hres ?_
      intro a ha b hb
      have ha' : a = f := by simpa using ha
      have hb' : b = f := by simpa using hb
      rw [ha', hb']
    | cons c cd =>
      simp only [groupLoop]
      split_ifs with h
      · refine ih _ [f] ?_ ?_
        · intro g hg
          rcases List.mem_append.mp hg with hg | hg
          · exact hres g hg
          · have : g = c :: cd := by simpa using hg
            subst this
            exact hcur
        · intro a ha b hb
          have ha' : a = f := by simpa using ha
          have hb' : b = f := by simpa using hb
          rw [ha', hb']
      · refine ih result (c :: cd ++ [f]) hres ?_
        have hf : f.dirPath = c.dirPath := not_not.mp (by simpa using h)
        have hall : ∀ x ∈ c :: cd ++ [f], x.dirPath = c.dirPath := by
          intro x hx
          rcases List.mem_append.mp hx with hx | hx
          · exact hcur x hx c (by simp)
          · have : x = f := by simpa using hx
            subst this
            exact hf
        intro a ha b hb
        rw [hall a ha, hall b hb]

theorem checkSeen_ok_iff : ∀ (gs : List (List RepoFile)) (seen : List String),
    checkSeen gs seen = .ok () ↔
      (gs.map groupHeadPath).Nodup ∧ ∀ d ∈ gs.map groupHeadPath, d ∉ seen := by
  intro gs
  induction gs with
  | nil =>
    intro seen
    simp [checkSeen]
  | cons g gs ih =>
    intro seen
    simp only [checkSeen]
    split_ifs with h
    · constructor
      · intro habs
        exact absurd habs (by simp)
      · rintro ⟨_, hall⟩
        exact absurd h (hall (groupHeadPath g) (by simp))
    · rw [ih]
      constructor
      · rintro ⟨hnd, hall⟩
        refine ⟨List.nodup_cons.mpr ⟨?_, hnd⟩, ?_⟩
        · intro hmem
          exact (hall _ hmem) (by simp)
        · intro d hd
          rcases List.mem_cons.mp hd with hd | hd
          · exact hd ▸ h
          · intro hds
            exact (hall d hd) (by simp [hds])
      · rintro ⟨hnd, hall⟩
        obtain ⟨hni, hnd'⟩ := List.nodup_cons.mp hnd
        refine ⟨hnd', ?_⟩
        intro d hd
        intro hds
        rcases List.mem_cons.mp hds with hds | hds
        · exact hni (hds ▸ hd)
        · exact (hall d (by simp [hd])) hds

/-! ## The claims on the directory grouping -/

/-- C8: `groupFilesByDirectory` fails exactly when some directory path
starts more than one contiguous run of the file list (the run-head paths
contain a duplicate), and succeeds otherwise. -/
theorem claim_C8_groupFilesByDirectory (files : List RepoFile) :
    (¬ (runStartPaths files).Nodup →
        ∃ msg, groupFilesByDirectory files = .error msg) ∧
    ((runStartPaths files).Nodup →
        ∃ gs, groupFilesByDirectory files = .ok gs) := by
  unfold groupFilesByDirectory runStartPaths
  split_ifs with h
  · have hf : files = [] := List.isEmpty_iff.mp h
    subst hf
    constructor
    · intro hnd
      exact absurd (by simp [groupLoop]) hnd
    · intro _
      exact ⟨[], rfl⟩
  · constructor
    · intro hnd
      cases hcs : checkSeen (groupLoop files [] []) [] with
      | ok u =>
        exfalso
        apply hnd
        have hok : checkSeen (groupLoop files [] []) [] = .ok () := by
          cases u
          exact hcs
        exact ((checkSeen_ok_iff _ _).mp hok).1
      | error e =>
        refine ⟨e, ?_⟩
        simp only [hcs]
    · intro hnd
      cases hcs : checkSeen (groupLoop files [] []) [] with
      | ok u =>
        refine ⟨groupLoop files [] [], ?_⟩
        simp only [hcs]
      | error e =>
        exfalso
        have hok : checkSeen (groupLoop files [] []) [] = .ok () :=
          (checkSeen_ok_iff _ _).mpr ⟨hnd, by simp⟩
        rw [hok] at hcs
        exact Except.noConfusion hcs

/-- Witness for C8: a file list in which directory `d1` starts two runs is
rejected; one in which each directory is a single contiguous run is
grouped. -/
theorem claim_C8_witness :
    (∃ msg, groupFilesByDirectory
        [⟨"d1", "a.json", "t", "b", 1, 1⟩, ⟨"d2", "b.json", "t", "b", 1, 2⟩,
         ⟨"d1", "c.json", "t", "b", 1, 3⟩] = .error msg) ∧
    (∃ gs, groupFilesByDirectory
        [⟨"d1", "a.json", "t", "b", 1, 1⟩, ⟨"d1", "b.json", "t", "b", 1, 2⟩,
         ⟨"d2", "c.json", "t", "b", 1, 3⟩] = .ok gs) :=
  ⟨(claim_C8_groupFilesByDirectory _).1 (by decide),
   (claim_C8_groupFilesByDirectory _).2 (by decide)⟩

/-- C10: on success, `groupFilesByDirectory` partitions its input: the
groups concatenate back to the input list in order, every group is
non-empty, and all files of one group share the directory path. -/
theorem claim_C10_grouping_partition (files : List RepoFile)
    (gs : List (List RepoFile)) (h : groupFilesByDirectory files = .ok gs) :
    gs.join = files ∧ (∀ g ∈ gs, g ≠ []) ∧
      ∀ g ∈ gs, ∀ a ∈ g, ∀ b ∈ g, a.dirPath = b.dirPath := by
  unfold groupFilesByDirectory at h
  split_ifs at h with he
  · have hf : files = [] := List.isEmpty_iff.mp he
    have hgs : gs = [] := (Except.ok.inj h).symm
    subst hf
    subst hgs
    simp
  · cases hcs : checkSeen (groupLoop files [] []) [] with
    | ok u =>
      simp only [hcs] at h
      have hgs : gs = groupLoop files [] [] := (Except.ok.inj h).symm
      subst hgs
      refine ⟨?_, groupLoop_ne_nil files [] [] (by simp),
        groupLoop_homog files [] [] (by simp) (by simp)⟩
      rw [groupLoop_join]
      simp
    | error e =>
      simp only [hcs] at h
      exact Except.noConfusion h

/-- Witness for C10 at a three-file list spanning two directories. -/
theorem claim_C10_witness :
    ([[⟨"d1", "a.json", "t", "b", 1, 1⟩, ⟨"d1", "b.json", "t", "b", 1, 2⟩],
      [⟨"d2", "c.json", "t", "b", 1, 3⟩]] : List (List RepoFile)).join =
        [⟨"d1", "a.json", "t", "b", 1, 1⟩, ⟨"d1", "b.json", "t", "b", 1, 2⟩,
         ⟨"d2", "c.json", "t", "b", 1, 3⟩] ∧
      (∀ g ∈ ([[⟨"d1", "a.json", "t", "b", 1, 1⟩, ⟨"d1", "b.json", "t", "b", 1, 2⟩],
        [⟨"d2", "c.json", "t", "b", 1, 3⟩]] : List (List RepoFile)), g ≠ []) ∧
      ∀ g ∈ ([[⟨"d1", "a.json", "t", "b", 1, 1⟩, ⟨"d1", "b.json", "t", "b", 1, 2⟩],
        [⟨"d2", "c.json", "t", "b", 1, 3⟩]] : List (List RepoFile)),
        ∀ a ∈ g, ∀ b ∈ g, a.dirPath = b.dirPath :=
  claim_C10_grouping_partition
    [⟨"d1", "a.json", "t", "b", 1, 1⟩, ⟨"d1", "b.json", "t", "b", 1, 2⟩,
     ⟨"d2", "c.json", "t", "b", 1, 3⟩] _ (by rfl)

/-! ## The claims on `handleCVE` and the batch skip test -/

/-- C4: an existing record is re-triaged only when the file's blob hash
differs from the stored one (otherwise the batch loop skips it); a
`NoActionNeeded` record whose new triage result yields a module moves to
`NeedsIssue`; a `NeedsIssue` record whose new triage result yields no
module moves to `NoActionNeeded`, clearing the module and cached CVE; an
`IssueCreated` or `UpdatedSinceIssueCreation` record moves to
`UpdatedSinceIssueCreation` with the reason recording the new
affected-module value; any other stored triage state yields an error; and
path, blob hash, CVE state and commit hash are refreshed on every
successful update. -/
theorem claim_C4_handleCVE_transitions (knownIDs : List String)
    (commitHash : String) (affectedModule : CVE → Option TriageResult)
    (readCVE : String → CVE) (idToRecord : String → Option CVERecord)
    (f : RepoFile) (o : CVERecord)
    (hold : idToRecord (idFromFilename f.filename) = some o) :
    (o.blobHash = f.blobHash →
        processRepoFile knownIDs commitHash affectedModule readCVE idToRecord f =
          .ok FileOutcome.unchanged) ∧
    (o.triageState = TriageStateNoActionNeeded →
      ∀ res, triageOf knownIDs affectedModule (readCVE f.blobHash) = some res →
      ∃ rec, handleCVE knownIDs commitHash affectedModule readCVE f (some o) =
          .ok (false, rec) ∧
        rec.triageState = TriageStateNeedsIssue ∧ rec.module = res.modulePath) ∧
    (o.triageState = TriageStateNeedsIssue →
      triageOf knownIDs affectedModule (readCVE f.blobHash) = none →
      ∃ rec, handleCVE knownIDs commitHash affectedModule readCVE f (some o) =
          .ok (false, rec) ∧
        rec.triageState = TriageStateNoActionNeeded ∧ rec.module = "" ∧
        rec.cve = none) ∧
    (o.triageState = TriageStateIssueCreated ∨
        o.triageState = TriageStateUpdatedSinceIssueCreation →
      ∃ rec, handleCVE knownIDs commitHash affectedModule readCVE f (some o) =
          .ok (false, rec) ∧
        rec.triageState = TriageStateUpdatedSinceIssueCreation ∧
        rec.triageStateReason = "CVE changed; affected module = \"" ++
          modOf (triageOf knownIDs affectedModule (readCVE f.blobHash)) ++ "\"") ∧
    (o.triageState ≠ TriageStateNoActionNeeded →
      o.triageState ≠ TriageStateNeedsIssue →
      o.triageState ≠ TriageStateIssueCreated →
      o.triageState ≠ TriageStateUpdatedSinceIssueCreation →
      ∃ msg, handleCVE knownIDs commitHash affectedModule readCVE f (some o) =
        .error msg) ∧
    (∀ a rec, handleCVE knownIDs commitHash affectedModule readCVE f (some o) =
        .ok (a, rec) →
      rec.path = pathJoin f.dirPath f.filename ∧ rec.blobHash = f.blobHash ∧
      rec.cveState = (readCVE f.blobHash).state ∧ rec.commitHash = commitHash) := by
  refine ⟨?_, ?_, ?_, ?_, ?_, ?_⟩
  · intro hb
    unfold processRepoFile
    simp only [hold]
    rw [if_pos hb]
  · intro hs res hres
    simp only [handleCVE, hres, hs]
    rw [if_pos trivial]
    exact ⟨_, rfl, rfl, rfl⟩
  · intro hs hres
    have h1 : TriageStateNeedsIssue ≠ TriageStateNoActionNeeded := by decide
    simp only [handleCVE, hres, hs]
    rw [if_neg h1, if_pos trivial]
    exact ⟨_, rfl, rfl, rfl, rfl⟩
  · intro hs
    have h1 : o.triageState ≠ TriageStateNoActionNeeded := by
      rcases hs with hs | hs <;> rw [hs] <;> decide
    have h2 : o.triageState ≠ TriageStateNeedsIssue := by
      rcases hs with hs | hs <;> rw [hs] <;> decide
    simp only [handleCVE]
    rw [if_neg h1, if_neg h2, if_pos hs]
    exact ⟨_, rfl, rfl, rfl⟩
  · intro h1 h2 h3 h4
    simp only [handleCVE]
    rw [if_neg h1, if_neg h2, if_neg (by rintro (h | h) <;> [exact h3 h; exact h4 h])]
    exact ⟨_, rfl⟩
  · intro a rec hrec
    simp only [handleCVE] at hrec
    cases htr : triageOf knownIDs affectedModule (readCVE f.blobHash) with
    | some res =>
      rw [htr] at hrec
      split_ifs at hrec <;>
        first
          | exact Except.noConfusion hrec
          | · simp only [Except.ok.injEq, Prod.mk.injEq] at hrec
              obtain ⟨-, hrec⟩ := hrec
              subst hrec
              exact ⟨rfl, rfl, rfl, rfl⟩
    | none =>
      rw [htr] at hrec
      split_ifs at hrec <;>
        first
          | exact Except.noConfusion hrec
          | · simp only [Except.ok.injEq, Prod.mk.injEq] at hrec
              obtain ⟨-, hrec⟩ := hrec
              subst hrec
              exact ⟨rfl, rfl, rfl, rfl⟩

/-- Witness for C4: a `NoActionNeeded` record whose changed blob now yields
module `example.com/m` moves to `NeedsIssue`; the refreshed fields carry
the new blob hash and commit hash. -/
theorem claim_C4_witness :
    (∃ rec, handleCVE [] "c2" (fun _ => some ⟨"example.com/m"⟩)
        (fun _ => ⟨"CVE-2020-1", "PUBLIC"⟩)
        ⟨"2020", "CVE-2020-1.json", "t", "b2", 2020, 1⟩
        (some ⟨"CVE-2020-1", "p", "b1", "c1", "PUBLIC", "NoActionNeeded", "",
          "", none, "", 0⟩) = .ok (false, rec) ∧
      rec.triageState = TriageStateNeedsIssue ∧ rec.module = "example.com/m") ∧
    processRepoFile [] "c2" (fun _ => some ⟨"example.com/m"⟩)
        (fun _ => ⟨"CVE-2020-1", "PUBLIC"⟩)
        (fun _ => some ⟨"CVE-2020-1", "p", "b2", "c1", "PUBLIC", "NoActionNeeded", "",
          "", none, "", 0⟩)
        ⟨"2020", "CVE-2020-1.json", "t", "b2", 2020, 1⟩ = .ok FileOutcome.unchanged :=
  ⟨(claim_C4_handleCVE_transitions [] "c2" (fun _ => some ⟨"example.com/m"⟩)
      (fun _ => ⟨"CVE-2020-1", "PUBLIC"⟩) (fun _ => some _)
      ⟨"2020", "CVE-2020-1.json", "t", "b2", 2020, 1⟩
      ⟨"CVE-2020-1", "p", "b1", "c1", "PUBLIC", "NoActionNeeded", "", "", none, "", 0⟩
      rfl).2.1 (by decide) ⟨"example.com/m"⟩ rfl,
   (claim_C4_handleCVE_transitions [] "c2" (fun _ => some ⟨"example.com/m"⟩)
      (fun _ => ⟨"CVE-2020-1", "PUBLIC"⟩) (fun _ => some _)
      ⟨"2020", "CVE-2020-1.json", "t", "b2", 2020, 1⟩
      ⟨"CVE-2020-1", "p", "b2", "c1", "PUBLIC", "NoActionNeeded", "", "", none, "", 0⟩
      rfl).1 (by decide)⟩

/-- C6, counterexample: for a known CVE ID, an existing record in state
`NeedsIssue` whose blob changed moves to `NoActionNeeded`, but its triage
reason is NOT set to "already in vuln DB" (the reason is only set on
newly created records). -/
theorem claim_C6_counterexample :
    handleCVE ["CVE-2020-1234"] "c2" (fun _ => none)
        (fun _ => ⟨"CVE-2020-1234", "PUBLIC"⟩)
        ⟨"2020", "CVE-2020-1234.json", "t", "b2", 2020, 1234⟩
        (some ⟨"CVE-2020-1234", "p", "b1", "c1", "PUBLIC", "NeedsIssue", "",
          "m", none, "", 0⟩) =
      .ok (false, ⟨"CVE-2020-1234", "2020/CVE-2020-1234.json", "b2", "c2",
        "PUBLIC", "NoActionNeeded", "", "", none, "", 0⟩) ∧
    ("" : String) ≠ "already in vuln DB" :=
  ⟨rfl, by decide⟩

/-- C6 as amended: for a CVE file whose parsed ID is known, the triage
classifier is never invoked (the outcome is the same for any two
classifiers), and a NEWLY CREATED record gets `NoActionNeeded` with reason
"already in vuln DB"; an existing record instead follows the ordinary
transitions with an empty triage result. -/
theorem claim_C6_amended_knownIDs (knownIDs : List String) (commitHash : String)
    (readCVE : String → CVE) (f : RepoFile)
    (h : knownIDs.contains (readCVE f.blobHash).id = true) :
    (∀ am am' : CVE → Option TriageResult, ∀ old,
      handleCVE knownIDs commitHash am readCVE f old =
        handleCVE knownIDs commitHash am' readCVE f old) ∧
    (∀ am : CVE → Option TriageResult,
      ∃ rec, handleCVE knownIDs commitHash am readCVE f none = .ok (true, rec) ∧
        rec.triageState = TriageStateNoActionNeeded ∧
        rec.triageStateReason = "already in vuln DB") := by
  have htri : ∀ am : CVE → Option TriageResult,
      triageOf knownIDs am (readCVE f.blobHash) = none := by
    intro am
    unfold triageOf
    rw [if_neg]
    rintro ⟨-, hnc⟩
    exact hnc h
  constructor
  · intro am am' old
    simp only [handleCVE, htri]
  · intro am
    simp only [handleCVE, htri, h]
    rw [if_pos trivial]
    exact ⟨_, rfl, rfl, rfl⟩

/-- Witness for the amended C6 at a concrete known ID: the new record is
`NoActionNeeded` with the recorded reason, for an arbitrary classifier. -/
theorem claim_C6_amended_witness :
    ∃ rec, handleCVE ["CVE-2020-1234"] "c1" (fun _ => some ⟨"ignored"⟩)
        (fun _ => ⟨"CVE-2020-1234", "PUBLIC"⟩)
        ⟨"2020", "CVE-2020-1234.json", "t", "b1", 2020, 1234⟩ none =
      .ok (true, rec) ∧
      rec.triageState = TriageStateNoActionNeeded ∧
      rec.triageStateReason = "already in vuln DB" :=
  (claim_C6_amended_knownIDs ["CVE-2020-1234"] "c1"
      (fun _ => ⟨"CVE-2020-1234", "PUBLIC"⟩)
      ⟨"2020", "CVE-2020-1234.json", "t", "b1", 2020, 1234⟩ (by decide)).2
    (fun _ => some ⟨"ignored"⟩)

/-! ## The claim on `updateDirectory` -/

theorem processBatches_effects (runBatch : List RepoFile → Except String (Nat × Nat)) :
    ∀ (bs : List (List RepoFile)) (stats : UpdateStats),
      ∀ e ∈ (processBatches runBatch bs stats).1, ∃ b, e = DirEffect.transaction b := by
  intro bs
  induction bs with
  | nil =>
    intro stats e he
    simp [processBatches] at he
  | cons b bs ih =>
    intro stats e he
    simp only [processBatches] at he
    cases hrb : runBatch b with
    | error msg =>
      rw [hrb] at he
      have : e = DirEffect.transaction b := by simpa using he
      exact ⟨b, this⟩
    | ok p =>
      rw [hrb] at he
      rcases List.mem_cons.mp he with h | h
      · exact ⟨b, h⟩
      · exact ih _ e h

/-- C5: when the stored directory hash equals the group's tree hash the
directory is skipped with no store operations; otherwise the stored hash
is first set to the sentinel "in progress", the batches are run as
transactions, and only when every batch succeeds is the final operation
the write of the real tree hash — a failing batch leaves the sentinel as
the only hash written. -/
theorem claim_C5_updateDirectory (dbHash : String)
    (runBatch : List RepoFile → Except String (Nat × Nat))
    (dirFiles : List RepoFile) :
    ((dirFiles.headD default).treeHash = dbHash →
        updateDirectory dbHash runBatch dirFiles = ([], .ok ⟨0, 0, 0⟩)) ∧
    ((dirFiles.headD default).treeHash ≠ dbHash →
      (∀ stats, (updateDirectory dbHash runBatch dirFiles).2 = .ok stats →
        ∃ ts, (∀ e ∈ ts, ∃ b, e = DirEffect.transaction b) ∧
          (updateDirectory dbHash runBatch dirFiles).1 =
            DirEffect.setDirHash (dirFiles.headD default).dirPath "in progress" ::
              ts ++ [DirEffect.setDirHash (dirFiles.headD default).dirPath
                (dirFiles.headD default).treeHash]) ∧
      (∀ msg, (updateDirectory dbHash runBatch dirFiles).2 = .error msg →
        ∃ ts, (∀ e ∈ ts, ∃ b, e = DirEffect.transaction b) ∧
          (updateDirectory dbHash runBatch dirFiles).1 =
            DirEffect.setDirHash (dirFiles.headD default).dirPath "in progress" ::
              ts)) := by
  constructor
  · intro h
    unfold updateDirectory
    rw [if_pos h]
  · intro h
    constructor
    · intro stats hok
      unfold updateDirectory at hok ⊢
      rw [if_neg h] at hok ⊢
      cases hrun : (processBatches runBatch (chunkFiles dirFiles) ⟨0, 0, 0⟩).2 with
      | error e =>
        simp only [hrun] at hok
        exact Except.noConfusion hok
      | ok st =>
        simp only [hrun]
        exact ⟨(processBatches runBatch (chunkFiles dirFiles) ⟨0, 0, 0⟩).1,
          processBatches_effects runBatch _ _, rfl⟩
    · intro msg herr
      unfold updateDirectory at herr ⊢
      rw [if_neg h] at herr ⊢
      cases hrun : (processBatches runBatch (chunkFiles dirFiles) ⟨0, 0, 0⟩).2 with
      | ok st =>
        simp only [hrun] at herr
        exact Except.noConfusion herr
      | error e =>
        simp only [hrun]
        exact ⟨(processBatches runBatch (chunkFiles dirFiles) ⟨0, 0, 0⟩).1,
          processBatches_effects runBatch _ _, rfl⟩

/-- Witness for C5: a one-file directory whose stored hash matches is
skipped outright; with a stale stored hash and a succeeding batch, the
sentinel is written first and the real tree hash last. -/
theorem claim_C5_witness :
    updateDirectory "T" (fun _ => .ok (1, 0)) [⟨"d", "a.json", "T", "b", 1, 1⟩] =
      ([], .ok ⟨0, 0, 0⟩) ∧
    ∃ ts, (∀ e ∈ ts, ∃ b, e = DirEffect.transaction b) ∧
      (updateDirectory "old" (fun _ => .ok (1, 0))
          [⟨"d", "a.json", "T", "b", 1, 1⟩]).1 =
        DirEffect.setDirHash "d" "in progress" ::
          ts ++ [DirEffect.setDirHash "d" "T"] :=
  ⟨(claim_C5_updateDirectory "T" (fun _ => .ok (1, 0))
      [⟨"d", "a.json", "T", "b", 1, 1⟩]).1 rfl,
   ((claim_C5_updateDirectory "old" (fun _ => .ok (1, 0))
      [⟨"d", "a.json", "T", "b", 1, 1⟩]).2 (by decide)).1 ⟨1, 1, 0⟩ rfl⟩

/-! ## The claim on `CreateIssues` -/

theorem issueTransaction_mem (env : IssueEnv) (store : List CVERecord)
    (id ref : String) :
    ∀ x ∈ issueTransaction env store id ref,
      x ∈ store ∨ (x.triageState = TriageStateIssueCreated ∧
        x.issueReference = ref ∧ x.issueCreatedAt = env.now) := by
  intro x hx
  unfold issueTransaction at hx
  cases hlk : lookupRecord store id with
  | none =>
    simp only [hlk] at hx
    exact Or.inl hx
  | some r =>
    simp only [hlk] at hx
    unfold setRecord at hx
    rcases List.mem_map.mp hx with ⟨y, hy, hxy⟩
    split_ifs at hxy
    · exact Or.inr (hxy ▸ ⟨rfl, rfl, rfl⟩)
    · exact Or.inl (hxy ▸ hy)

theorem createIssuesLoop_spec (env : IssueEnv) (limit : Nat)
    (href : ∀ id, env.refOf id ≠ "") (hnow : env.now ≠ 0) :
    ∀ (todo store : List CVERecord) (n : Nat),
      (∀ r ∈ store, recordInv r) →
      (∀ r ∈ (createIssuesLoop env limit todo store n).1, recordInv r) ∧
      (∀ id ∈ (createIssuesLoop env limit todo store n).2,
        id ∈ (todo.filter fun r =>
          decide (r.issueReference = "" ∧ r.issueCreatedAt = 0)).map
            (fun r => r.id)) ∧
      (∀ r ∈ (createIssuesLoop env limit todo store n).1,
        r ∈ store ∨ (r.triageState = TriageStateIssueCreated ∧
          r.issueReference ≠ "" ∧ r.issueCreatedAt = env.now)) := by
  intro todo
  induction todo with
  | nil =>
    intro store n hstore
    exact ⟨hstore, by simp [createIssuesLoop], fun r hr => Or.inl hr⟩
  | cons r rs ih =>
    intro store n hstore
    simp only [createIssuesLoop]
    split_ifs with hlim hskip
    · exact ⟨hstore, by simp, fun x hx => Or.inl hx⟩
    · obtain ⟨h1, h2, h3⟩ := ih store n hstore
      refine ⟨h1, ?_, h3⟩
      intro id hid
      have := h2 id hid
      rcases List.mem_map.mp this with ⟨y, hy, hxy⟩
      refine List.mem_map.mpr ⟨y, ?_, hxy⟩
      rw [List.mem_filter] at hy ⊢
      exact ⟨List.mem_cons_of_mem r hy.1, hy.2⟩
    · push_neg at hskip
      obtain ⟨hr1, hr2⟩ := hskip
      have hstore' : ∀ x ∈ issueTransaction env store r.id (env.refOf r.id),
          recordInv x := by
        intro x hx
        rcases issueTransaction_mem env store r.id (env.refOf r.id) x hx with h | h
        · exact hstore x h
        · exact fun _ => ⟨h.2.1 ▸ href r.id, h.2.2 ▸ hnow⟩
      obtain ⟨h1, h2, h3⟩ := ih (issueTransaction env store r.id (env.refOf r.id))
        (n + 1) hstore'
      refine ⟨h1, ?_, ?_⟩
      · intro id hid
        rcases List.mem_cons.mp hid with hid | hid
        · refine List.mem_map.mpr ⟨r, ?_, hid.symm⟩
          rw [List.mem_filter]
          exact ⟨by simp, by simp [hr1, hr2]⟩
        · have := h2 id hid
          rcases List.mem_map.mp this with ⟨y, hy, hxy⟩
          refine List.mem_map.mpr ⟨y, ?_, hxy⟩
          rw [List.mem_filter] at hy ⊢
          exact ⟨List.mem_cons_of_mem r hy.1, hy.2⟩
      · intro x hx
        rcases h3 x hx with h | h
        · rcases issueTransaction_mem env store r.id (env.refOf r.id) x h with h' | h'
          · exact Or.inl h'
          · exact Or.inr ⟨h'.1, h'.2.1 ▸ href r.id, h'.2.2⟩
        · exact Or.inr h

/-- C7: `CreateIssues` preserves the invariant that every `IssueCreated`
record carries a non-empty issue reference and a non-zero creation time
(given that the issue client's references are non-empty and the clock is
non-zero); a swept record already carrying issue fields is skipped without
a ticket (every created ticket belongs to a `NeedsIssue` record with empty
issue fields); and every record the sweep rewrites is set to
`IssueCreated` with both issue fields populated. -/
theorem claim_C7_createIssues (env : IssueEnv) (limit : Nat)
    (store : List CVERecord)
    (href : ∀ id, env.refOf id ≠ "") (hnow : env.now ≠ 0)
    (hinv : ∀ r ∈ store, recordInv r) :
    (∀ r ∈ (createIssues env limit store).1, recordInv r) ∧
    (∀ id ∈ (createIssues env limit store).2,
      id ∈ ((store.filter fun r => r.triageState = TriageStateNeedsIssue).filter
        fun r => decide (r.issueReference = "" ∧ r.issueCreatedAt = 0)).map
          (fun r => r.id)) ∧
    (∀ r ∈ (createIssues env limit store).1,
      r ∈ store ∨ (r.triageState = TriageStateIssueCreated ∧
        r.issueReference ≠ "" ∧ r.issueCreatedAt = env.now)) :=
  createIssuesLoop_spec env limit href hnow
    (store.filter fun r => r.triageState = TriageStateNeedsIssue) store 0 hinv

/-- Witness for C7 at a two-record store: one clean `NeedsIssue` record and
one `NeedsIssue` record already carrying a reference (which must not
receive a ticket). -/
theorem claim_C7_witness :
    (∀ r ∈ (createIssues ⟨fun _ => "golang/go#1", 5⟩ 10
        [⟨"CVE-1", "p", "b", "c", "PUBLIC", "NeedsIssue", "", "", none, "", 0⟩,
         ⟨"CVE-2", "p", "b", "c", "PUBLIC", "NeedsIssue", "", "", none, "ref", 0⟩]).1,
      recordInv r) ∧
    (∀ id ∈ (createIssues ⟨fun _ => "golang/go#1", 5⟩ 10
        [⟨"CVE-1", "p", "b", "c", "PUBLIC", "NeedsIssue", "", "", none, "", 0⟩,
         ⟨"CVE-2", "p", "b", "c", "PUBLIC", "NeedsIssue", "", "", none, "ref", 0⟩]).2,
      id ∈ ((([⟨"CVE-1", "p", "b", "c", "PUBLIC", "NeedsIssue", "", "", none, "", 0⟩,
         ⟨"CVE-2", "p", "b", "c", "PUBLIC", "NeedsIssue", "", "", none, "ref", 0⟩] :
           List CVERecord).filter
             fun r => r.triageState = TriageStateNeedsIssue).filter
        fun r => decide (r.issueReference = "" ∧ r.issueCreatedAt = 0)).map
          (fun r => r.id)) ∧
    (∀ r ∈ (createIssues ⟨fun _ => "golang/go#1", 5⟩ 10
        [⟨"CVE-1", "p", "b", "c", "PUBLIC", "NeedsIssue", "", "", none, "", 0⟩,
         ⟨"CVE-2", "p", "b", "c", "PUBLIC", "NeedsIssue", "", "", none, "ref", 0⟩]).1,
      r ∈ [⟨"CVE-1", "p", "b", "c", "PUBLIC", "NeedsIssue", "", "", none, "", 0⟩,
         ⟨"CVE-2", "p", "b", "c", "PUBLIC", "NeedsIssue", "", "", none, "ref", 0⟩] ∨
        (r.triageState = TriageStateIssueCreated ∧ r.issueReference ≠ "" ∧
          r.issueCreatedAt = 5)) :=
  claim_C7_createIssues ⟨fun _ => "golang/go#1", 5⟩ 10
    [⟨"CVE-1", "p", "b", "c", "PUBLIC", "NeedsIssue", "", "", none, "", 0⟩,
     ⟨"CVE-2", "p", "b", "c", "PUBLIC", "NeedsIssue", "", "", none, "ref", 0⟩]
    (fun id => (show ("golang/go#1" : String) ≠ "" by decide)) (by decide) (by decide)

end Golangvuln
